import Mathlib

/-!
Shallow embedding of the SSD Dispatch Tracker persistent store
(src/database.py), its bulk merge engine (bulk_import_employees) and the
badge-photo cache (src/photo_manager.py), together with theorems checking
the specification claims against this embedding.

Modelling conventions.  SQLite TEXT values are Lean String values, nullable
columns are Option, and DATE / TIMESTAMP values are Nat day ordinals:
ISO-8601 date strings compare lexicographically, which is order-isomorphic
to the day ordinal, so the SQL comparison (expiration_date > date('now'))
becomes (today < d).  A table is a list of rows in insertion (rowid) order.
A Python exception that an operation catches itself (returning False or
None, as every Database method does) is modelled as a Bool result paired
with the unchanged table; an exception that escapes to a caller with its
own try/except (the TypeError raised at the call sites inside
bulk_import_employees) is modelled as an explicit error outcome at that
caller.  The comma join/split done by get_training_gaps and the whitespace
tokenisation done by the initials generator are modelled as structurally
recursive functions on the underlying character lists of the strings.
-/

namespace Dispatch

/-- Config.SHIFTS, also the schema CHECK set for employees.shift. -/
def SHIFTS : List String := ["DAY", "NIGHT", "TWILIGHT"]

/-- Schema CHECK set for employees.status. -/
def EMP_STATUSES : List String := ["active", "inactive", "leave"]

/-- Config.CLUSTERS, also the schema CHECK set for assignments.cluster. -/
def CLUSTERS : List String :=
  ["A", "B", "C", "D", "E", "F", "G", "H", "I", "J", "K", "L", "M"]

/-- Schema CHECK set for assignments.status. -/
def ASSIGN_STATUSES : List String := ["active", "completed", "cancelled"]

/-- Schema CHECK set for certifications.status. -/
def CERT_STATUSES : List String := ["active", "expired", "revoked"]

/-- Config.PHOTO_EXTENSIONS, the fixed ordered extension list tried by
PhotoManager._find_photo. -/
def PHOTO_EXTENSIONS : List String := [".jpg", ".jpeg", ".png", ".gif"]

/-- Row of the employees table (src/database.py, _create_schema). -/
structure Employee where
  employee_id : String
  name : String
  photo_path : Option String := none
  shift : Option String := none
  schedule : Option String := none
  certifications : Option String := none
  restrictions : Option String := none
  hire_date : Option String := none
  status : String := "active"
  created_at : Nat := 0
  updated_at : Nat := 0
deriving DecidableEq, Repr

/-- Recognised optional keyword fields of Database.add_employee; an absent
field is none (the INSERT omits the column, so the schema default
applies). -/
structure EmpOpts where
  photo_path : Option String := none
  shift : Option String := none
  schedule : Option String := none
  certifications : Option String := none
  restrictions : Option String := none
  hire_date : Option String := none
  status : Option String := none
deriving DecidableEq, Repr

/-- SQLite CHECK on a nullable enumerated column: a NULL value passes the
CHECK (the comparison yields NULL, which does not fail the constraint). -/
def shiftOk : Option String → Bool
  | none => true
  | some s => SHIFTS.contains s

def empStatusOk (s : String) : Bool := EMP_STATUSES.contains s

/-- Whether a row with this primary key is present (the employees PRIMARY
KEY constraint consults exactly this). -/
def containsEmployee (db : List Employee) (id : String) : Bool :=
  db.any (fun r => r.employee_id == id)

/-- Database.get_employee: SELECT by primary key, None when absent. -/
def getEmployee (db : List Employee) (id : String) : Option Employee :=
  db.find? (fun r => r.employee_id == id)

/-- Row built by the INSERT of Database.add_employee: provided fields are
inserted, an omitted status takes the schema default, and both timestamps
take CURRENT_TIMESTAMP. -/
def mkEmployee (now : Nat) (id nm : String) (o : EmpOpts) : Employee :=
  { employee_id := id, name := nm, photo_path := o.photo_path,
    shift := o.shift, schedule := o.schedule,
    certifications := o.certifications, restrictions := o.restrictions,
    hire_date := o.hire_date, status := (o.status.getD "active"),
    created_at := now, updated_at := now }

/-- Constraints the INSERT of add_employee must satisfy beyond the primary
key: the shift CHECK and the status CHECK (on the provided value or the
schema default). -/
def empOptsOk (o : EmpOpts) : Bool :=
  shiftOk o.shift && empStatusOk (o.status.getD "active")

/-- Database.add_employee: a single INSERT; a duplicate primary key or a
CHECK violation raises inside the method, is caught there, and the method
returns False with the table unchanged; otherwise the row is appended and
the method returns True. -/
def addEmployee (db : List Employee) (now : Nat) (id nm : String)
    (o : EmpOpts) : Bool × List Employee :=
  if containsEmployee db id || !empOptsOk o then (false, db)
  else (true, db ++ [mkEmployee now id nm o])

/-- Row of the certifications table (src/database.py, _create_schema). -/
structure Certification where
  cert_id : Nat
  employee_id : String
  process_path : Option String := none
  level : Option String := none
  certified_date : Option Nat := none
  trainer_id : Option String := none
  expiration_date : Option Nat := none
  status : String := "active"
deriving DecidableEq, Repr

/-- The SQL condition (expiration_date IS NULL OR expiration_date >
date('now')) from Database.check_certification. -/
def certValidNow (today : Nat) (c : Certification) : Bool :=
  match c.expiration_date with
  | none => true
  | some d => today < d

/-- Database.check_certification: COUNT of rows matching employee, process,
active status and the validity window, compared with 0. -/
def checkCertification (certs : List Certification) (today : Nat)
    (eid process : String) : Bool :=
  decide (0 < (certs.filter (fun c =>
    c.employee_id == eid && c.process_path == some process &&
    c.status == "active" && certValidNow today c)).length)

theorem certValidNow_iff (today : Nat) (c : Certification) :
    certValidNow today c = true ↔
      c.expiration_date = none ∨
        ∃ d, c.expiration_date = some d ∧ today < d := by
  cases h : c.expiration_date with
  | none => simp [certValidNow, h]
  | some d => simp [certValidNow, h]

/-- C1: check_certification returns true iff the store holds a
certification for that worker and process with status active whose
expiration date is absent or strictly in the future; in particular a
certification expiring exactly today never makes it return true. -/
theorem check_certification_spec (certs : List Certification) (today : Nat)
    (eid process : String) :
    (checkCertification certs today eid process = true ↔
      ∃ c ∈ certs, c.employee_id = eid ∧ c.process_path = some process ∧
        c.status = "active" ∧
        (c.expiration_date = none ∨
          ∃ d, c.expiration_date = some d ∧ today < d)) ∧
    (∀ c : Certification, c.expiration_date = some today →
      checkCertification [c] today eid process = false) := by
  constructor
  · rw [checkCertification, decide_eq_true_eq,
      ← List.countP_eq_length_filter, List.countP_pos_iff]
    constructor
    · rintro ⟨c, hc, hp⟩
      refine ⟨c, hc, ?_⟩
      simp only [Bool.and_eq_true, beq_iff_eq] at hp
      exact ⟨hp.1.1.1, hp.1.1.2, hp.1.2, (certValidNow_iff today c).mp hp.2⟩
    · rintro ⟨c, hc, h1, h2, h3, h4⟩
      refine ⟨c, hc, ?_⟩
      simp only [Bool.and_eq_true, beq_iff_eq]
      exact ⟨⟨⟨h1, h2⟩, h3⟩, (certValidNow_iff today c).mpr h4⟩
  · intro c h
    simp [checkCertification, certValidNow, h]

/-- Witness for C1: a lone certification expiring exactly today is
rejected. -/
theorem check_certification_spec_witness :
    checkCertification
      [{ cert_id := 1, employee_id := "E1", process_path := some "PICK",
         expiration_date := some 5 }] 5 "E1" "PICK" = false :=
  (check_certification_spec
      [{ cert_id := 1, employee_id := "E1", process_path := some "PICK",
         expiration_date := some 5 }] 5 "E1" "PICK").2 _ rfl

/-- C2: add_employee on an identity that is already present fails (the
PRIMARY KEY violation is caught and False is returned) and leaves the
employees table, hence the existing row, unchanged. -/
theorem add_employee_duplicate_fails (db : List Employee) (now : Nat)
    (id nm : String) (o : EmpOpts) (h : containsEmployee db id = true) :
    addEmployee db now id nm o = (false, db) := by
  simp [addEmployee, h]

/-- Witness for C2: re-adding identity E1 fails and the stored row keeps
its fields. -/
theorem add_employee_duplicate_fails_witness :
    containsEmployee [{ employee_id := "E1", name := "Old" }] "E1" = true ∧
    addEmployee [{ employee_id := "E1", name := "Old" }] 3 "E1" "New" {} =
      (false, [{ employee_id := "E1", name := "Old" }]) :=
  ⟨by decide, add_employee_duplicate_fails _ 3 "E1" "New" {} (by decide)⟩

/-- A candidate record handed to bulk_import_employees: a flat mapping in
which the identity, the name and each recognised optional field may be
present or absent (emp.get of an absent key yields None). -/
structure ImportRecord where
  employee_id : Option String := none
  name : Option String := none
  opts : EmpOpts := {}
deriving DecidableEq, Repr

/-- One iteration of the loop in Database.bulk_import_employees, returning
the new table and whether the iteration reached success += 1.  The Bool is
false exactly when the iteration raises a TypeError that the surrounding
try/except turns into errors += 1: a record without the identity key or
without the name key makes the add_employee call raise, and a record whose
identity already exists makes the update_employee call raise (it receives
employee_id both positionally and inside the keyword expansion of the whole
record).  When add_employee runs, its own internal failure (duplicate key
or CHECK violation) is swallowed there, so the iteration still counts a
success. -/
def bulkStep (st : List Employee) (now : Nat) (r : ImportRecord) :
    List Employee × Bool :=
  match r.employee_id with
  | none => (st, false)
  | some i =>
    if containsEmployee st i then (st, false)
    else
      match r.name with
      | none => (st, false)
      | some nm => ((addEmployee st now i nm r.opts).2, true)

/-- Database.bulk_import_employees: record-at-a-time loop returning
(success_count, error_count) and the final table. -/
def bulkImportEmployees (db : List Employee) (now : Nat)
    (emps : List ImportRecord) : (Nat × Nat) × List Employee :=
  emps.foldl
    (fun acc emp =>
      let s := bulkStep acc.2 now emp
      (if s.2 then (acc.1.1 + 1, acc.1.2) else (acc.1.1, acc.1.2 + 1), s.1))
    ((0, 0), db)

/-- The table component of the bulk import alone. -/
def runImport (db : List Employee) (now : Nat)
    (emps : List ImportRecord) : List Employee :=
  emps.foldl (fun st emp => (bulkStep st now emp).1) db

theorem bulkImport_fold (db : List Employee) (now : Nat)
    (emps : List ImportRecord) (c : Nat × Nat) :
    emps.foldl
      (fun acc emp =>
        let s := bulkStep acc.2 now emp
        (if s.2 then (acc.1.1 + 1, acc.1.2) else (acc.1.1, acc.1.2 + 1),
          s.1))
      (c, db) =
      ((emps.foldl
          (fun acc emp =>
            let s := bulkStep acc.2 now emp
            (if s.2 then (acc.1.1 + 1, acc.1.2) else (acc.1.1, acc.1.2 + 1),
              s.1))
          (c, db)).1, runImport db now emps) := by
  induction emps generalizing db c with
  | nil => simp [runImport]
  | cons r rest ih =>
    simp only [List.foldl_cons, runImport] at ih ⊢
    rw [ih]

theorem bulkImport_snd (db : List Employee) (now : Nat)
    (emps : List ImportRecord) :
    (bulkImportEmployees db now emps).2 = runImport db now emps := by
  rw [bulkImportEmployees, bulkImport_fold]

theorem bulkImport_counts_sum (db : List Employee) (now : Nat)
    (emps : List ImportRecord) :
    (bulkImportEmployees db now emps).1.1 +
      (bulkImportEmployees db now emps).1.2 = emps.length := by
  suffices h : ∀ (emps : List ImportRecord) (db : List Employee)
      (c : Nat × Nat),
      (emps.foldl
          (fun acc emp =>
            let s := bulkStep acc.2 now emp
            (if s.2 then (acc.1.1 + 1, acc.1.2) else (acc.1.1, acc.1.2 + 1),
              s.1))
          (c, db)).1.1 +
        (emps.foldl
            (fun acc emp =>
              let s := bulkStep acc.2 now emp
              (if s.2 then (acc.1.1 + 1, acc.1.2)
                else (acc.1.1, acc.1.2 + 1), s.1))
            (c, db)).1.2 = c.1 + c.2 + emps.length by
    have := h emps db (0, 0)
    simpa [bulkImportEmployees] using this
  intro emps
  induction emps with
  | nil => intro db c; simp
  | cons r rest ih =>
    intro db c
    simp only [List.foldl_cons]
    rcases h : (bulkStep db now r).2 with _ | _ <;>
      simp [h, ih, Nat.add_comm, Nat.add_assoc, Nat.add_left_comm]

theorem containsEmployee_append (db : List Employee) (x : Employee)
    (i : String) (h : containsEmployee db i = true) :
    containsEmployee (db ++ [x]) i = true := by
  simp only [containsEmployee, List.any_append, Bool.or_eq_true]
  exact Or.inl h

theorem bulkStep_mono (st : List Employee) (now : Nat) (r : ImportRecord)
    (i : String) (h : containsEmployee st i = true) :
    containsEmployee (bulkStep st now r).1 i = true := by
  rcases r with ⟨rid, rnm, ro⟩
  cases rid with
  | none => exact h
  | some j =>
    simp only [bulkStep]
    by_cases hc : containsEmployee st j = true
    · simp [hc, h]
    · simp only [Bool.not_eq_true] at hc
      cases rnm with
      | none => simp [hc, h]
      | some nm =>
        simp only [hc, Bool.false_eq_true, if_false, addEmployee]
        by_cases ho : empOptsOk ro = true
        · simp [hc, ho, containsEmployee_append _ _ _ h]
        · simp only [Bool.not_eq_true] at ho
          simp [hc, ho, h]

theorem runImport_mono (db : List Employee) (now : Nat)
    (emps : List ImportRecord) (i : String)
    (h : containsEmployee db i = true) :
    containsEmployee (runImport db now emps) i = true := by
  induction emps generalizing db with
  | nil => exact h
  | cons r rest ih =>
    simp only [runImport, List.foldl_cons] at ih ⊢
    exact ih _ (bulkStep_mono db now r i h)

theorem bulkStep_sublist (st : List Employee) (now : Nat)
    (r : ImportRecord) : List.Sublist st (bulkStep st now r).1 := by
  rcases r with ⟨rid, rnm, ro⟩
  cases rid with
  | none => exact List.Sublist.refl st
  | some j =>
    simp only [bulkStep]
    by_cases hc : containsEmployee st j = true
    · simp [hc]
    · simp only [Bool.not_eq_true] at hc
      cases rnm with
      | none => simp [hc]
      | some nm =>
        simp only [hc, Bool.false_eq_true, if_false, addEmployee]
        by_cases ho : empOptsOk ro = true
        · simp [hc, ho]
        · simp only [Bool.not_eq_true] at ho
          simp [hc, ho]

theorem runImport_sublist (db : List Employee) (now : Nat)
    (emps : List ImportRecord) :
    List.Sublist db (runImport db now emps) := by
  induction emps generalizing db with
  | nil => exact List.Sublist.refl db
  | cons r rest ih =>
    simp only [runImport, List.foldl_cons] at ih ⊢
    exact (bulkStep_sublist db now r).trans (ih _)

/-- After a run, every record of the batch that carries an identity, a name
and constraint-satisfying optional fields has its identity present in the
resulting table (either it was already there, or its insert succeeded). -/
theorem bulkStep_insert (db : List Employee) (now : Nat) (ro : EmpOpts)
    (i nm : String) (hc : containsEmployee db i = false)
    (ho : empOptsOk ro = true) :
    (bulkStep db now ⟨some i, some nm, ro⟩).1 =
      db ++ [mkEmployee now i nm ro] := by
  simp [bulkStep, hc, addEmployee, ho]

theorem runImport_contains_of_good (now : Nat) (emps : List ImportRecord)
    (db : List Employee) (r : ImportRecord) (hr : r ∈ emps) (i : String)
    (hid : r.employee_id = some i) (nm : String) (hnm : r.name = some nm)
    (ho : empOptsOk r.opts = true) :
    containsEmployee (runImport db now emps) i = true := by
  induction emps generalizing db with
  | nil => cases hr
  | cons q rest ih =>
    simp only [runImport, List.foldl_cons] at ih ⊢
    rcases List.mem_cons.mp hr with hq | hq
    · subst hq
      apply runImport_mono
      by_cases hc : containsEmployee db i = true
      · exact bulkStep_mono db now r i hc
      · simp only [Bool.not_eq_true] at hc
        rcases r with ⟨rid, rnm, ro⟩
        simp only at hid hnm ho
        subst hid
        subst hnm
        rw [bulkStep_insert db now ro i nm hc ho]
        simp [containsEmployee, mkEmployee]
    · exact ih _ hq

theorem runImport_fixed (db1 : List Employee) (now : Nat)
    (emps : List ImportRecord)
    (h : ∀ r ∈ emps, (bulkStep db1 now r).1 = db1) :
    runImport db1 now emps = db1 := by
  induction emps with
  | nil => rfl
  | cons r rest ih =>
    simp only [runImport, List.foldl_cons] at ih ⊢
    rw [h r (List.mem_cons_self r rest)]
    exact ih (fun q hq => h q (List.mem_cons_of_mem r hq))

theorem bulkStep_of_run_fixed (db : List Employee) (now now2 : Nat)
    (emps : List ImportRecord) (r : ImportRecord) (hr : r ∈ emps) :
    (bulkStep (runImport db now emps) now2 r).1 =
      runImport db now emps := by
  rcases hid : r.employee_id with _ | i
  · simp [bulkStep, hid]
  · simp only [bulkStep, hid]
    by_cases hc : containsEmployee (runImport db now emps) i = true
    · simp [hc]
    · simp only [Bool.not_eq_true] at hc
      rcases hnm : r.name with _ | nm
      · simp [hc]
      · by_cases ho : empOptsOk r.opts = true
        · exact absurd
            (runImport_contains_of_good now emps db r hr i hid nm hnm ho)
            (by simp [hc])
        · simp only [Bool.not_eq_true] at ho
          simp [hc, addEmployee, ho]

/-- C3 counterexample: a batch of one fresh record whose status violates
the schema CHECK.  The insert fails inside add_employee (which returns
False), no row is applied, yet bulk_import_employees reports it as a
success: the result is (1, 0) with an unchanged empty table, where the
claim demands (0, 1). -/
theorem bulk_import_counts_counterexample :
    bulkImportEmployees [] 0
        [{ employee_id := some "E1", name := some "N",
           opts := { status := some "bogus" } }] = ((1, 0), []) := by
  decide

/-- C3 amended: the two counts always partition the batch, a record never
halts processing of later records (the run over a cons is the run over the
tail from the stepped table), and nothing already in the table is ever
rolled back (the prior table is a sublist of the result); but the counts
classify records by whether the loop body raised, not by whether the record
was applied: a record rejected inside add_employee still counts as a
success and a record whose identity already exists always counts as an
error. -/
theorem bulk_import_counts_amended :
    (∀ (db : List Employee) (now : Nat) (emps : List ImportRecord),
      (bulkImportEmployees db now emps).1.1 +
        (bulkImportEmployees db now emps).1.2 = emps.length) ∧
    (∀ (db : List Employee) (now : Nat) (emps : List ImportRecord),
      List.Sublist db (bulkImportEmployees db now emps).2) ∧
    (∀ (db : List Employee) (now : Nat) (r : ImportRecord)
      (rest : List ImportRecord),
      (bulkImportEmployees db now (r :: rest)).2 =
        (bulkImportEmployees (bulkStep db now r).1 now rest).2) := by
  refine ⟨bulkImport_counts_sum, ?_, ?_⟩
  · intro db now emps
    rw [bulkImport_snd]
    exact runImport_sublist db now emps
  · intro db now r rest
    rw [bulkImport_snd, bulkImport_snd]
    simp [runImport]

/-- C4 evaluation at the failing input: the store holds worker E1 named
Old; importing a record for E1 with a new name applies no update at all
(the update_employee call raises a TypeError because employee_id arrives
both positionally and in the expanded record) and the record is counted as
an error, where the claim demands a partial update and the name New. -/
theorem bulk_import_update_path_eval :
    bulkImportEmployees [{ employee_id := "E1", name := "Old" }] 9
        [{ employee_id := some "E1", name := some "New" }] =
      ((0, 1), [{ employee_id := "E1", name := "Old" }]) := by
  decide

/-- C5: re-running the same batch leaves the table exactly as after the
first run (same rows, same field values, no duplication) and in particular
performs zero inserts (the row count does not change).  The second run in
fact applies nothing at all: every record either errors out (identity
already present, or identity or name missing) or repeats an insert that
already failed for record-intrinsic reasons. -/
theorem bulk_import_idempotent (db : List Employee) (now1 now2 : Nat)
    (emps : List ImportRecord) :
    (bulkImportEmployees (bulkImportEmployees db now1 emps).2 now2
        emps).2 = (bulkImportEmployees db now1 emps).2 ∧
    ((bulkImportEmployees (bulkImportEmployees db now1 emps).2 now2
        emps).2).length = ((bulkImportEmployees db now1 emps).2).length := by
  have h : (bulkImportEmployees (bulkImportEmployees db now1 emps).2 now2
      emps).2 = (bulkImportEmployees db now1 emps).2 := by
    rw [bulkImport_snd, bulkImport_snd]
    exact runImport_fixed _ now2 emps
      (fun r hr => bulkStep_of_run_fixed db now1 now2 emps r hr)
  exact ⟨h, by rw [h]⟩

/-- Helper: a map whose function fixes every element of the list is the
identity on that list. -/
theorem map_eq_self {α : Type} (l : List α) (f : α → α)
    (h : ∀ a ∈ l, f a = a) : l.map f = l := by
  induction l with
  | nil => rfl
  | cons x xs ih =>
    simp only [List.map_cons, h x (List.mem_cons_self x xs)]
    rw [ih (fun a ha => h a (List.mem_cons_of_mem x ha))]

/-- Row of the assignments table (src/database.py, _create_schema). -/
structure Assignment where
  assignment_id : Nat
  employee_id : String
  shift_date : Nat
  cluster : Option String := none
  aisle : Option Nat := none
  position_type : Option String := none
  assigned_at : Nat := 0
  assigned_by : Option String := none
  status : String := "active"
  notes : Option String := none
deriving DecidableEq, Repr

def clusterOk : Option String → Bool
  | none => true
  | some c => CLUSTERS.contains c

def aisleOk : Option Nat → Bool
  | none => true
  | some n => decide (1 ≤ n) && decide (n ≤ 30)

def asgStatusOk (s : String) : Bool := ASSIGN_STATUSES.contains s

/-- CHECK constraints the assignments schema imposes on a (possibly
updated) row. -/
def asgRowOk (a : Assignment) : Bool :=
  clusterOk a.cluster && aisleOk a.aisle && asgStatusOk a.status

def containsAssignment (asgs : List Assignment) (aid : Nat) : Bool :=
  asgs.any (fun a => a.assignment_id == aid)

/-- One assignment of the dynamic SET clause of Database.update_assignment
(the kwargs keys are column names, modelled as typed constructors; the
identity column is never updated, matching every caller and the
spec's immutable-identity invariant). -/
inductive AsgField where
  | employee_id (v : String)
  | shift_date (v : Nat)
  | cluster (v : Option String)
  | aisle (v : Option Nat)
  | position_type (v : Option String)
  | assigned_by (v : Option String)
  | status (v : String)
  | notes (v : Option String)
deriving DecidableEq, Repr

def applyAsgField (a : Assignment) : AsgField → Assignment
  | .employee_id v => { a with employee_id := v }
  | .shift_date v => { a with shift_date := v }
  | .cluster v => { a with cluster := v }
  | .aisle v => { a with aisle := v }
  | .position_type v => { a with position_type := v }
  | .assigned_by v => { a with assigned_by := v }
  | .status v => { a with status := v }
  | .notes v => { a with notes := v }

def applyAsgFields (a : Assignment) (fs : List AsgField) : Assignment :=
  fs.foldl applyAsgField a

/-- Database.update_assignment: an empty kwargs dict yields a malformed SET
clause (SQL syntax error, caught, False); a CHECK violation on a row that
the WHERE clause matches makes the single UPDATE statement fail as a whole
(caught, False, nothing applied); otherwise every matched row is updated in
place and True is returned, whether or not any row matched. -/
def updateAssignment (asgs : List Assignment) (aid : Nat)
    (fs : List AsgField) : Bool × List Assignment :=
  if fs.isEmpty then (false, asgs)
  else if asgs.any (fun a =>
      a.assignment_id == aid && !asgRowOk (applyAsgFields a fs)) then
    (false, asgs)
  else
    (true, asgs.map (fun a =>
      if a.assignment_id == aid then applyAsgFields a fs else a))

/-- Database.delete_assignment: a logical delete, a single UPDATE that
flips status to cancelled on every row whose identity matches and returns
True (the cancelled literal satisfies the status CHECK, so the statement
cannot fail a constraint). -/
def deleteAssignment (asgs : List Assignment) (aid : Nat) :
    Bool × List Assignment :=
  (true, asgs.map (fun a =>
    if a.assignment_id == aid then { a with status := "cancelled" } else a))

/-- Joined row shape returned by Database.get_assignments_by_date
(SELECT a.*, e.name, e.photo_path). -/
structure AssignmentView where
  assignment_id : Nat
  employee_id : String
  shift_date : Nat
  cluster : Option String
  aisle : Option Nat
  position_type : Option String
  assigned_at : Nat
  assigned_by : Option String
  status : String
  notes : Option String
  name : String
  photo_path : Option String
deriving DecidableEq, Repr

def optNatLe : Option Nat → Option Nat → Bool
  | none, _ => true
  | some _, none => false
  | some x, some y => decide (x ≤ y)

/-- ORDER BY a.cluster, a.aisle with the SQLite ascending convention that
NULL sorts first. -/
def clusterAisleLe (x y : AssignmentView) : Bool :=
  match x.cluster, y.cluster with
  | none, none => optNatLe x.aisle y.aisle
  | none, some _ => true
  | some _, none => false
  | some a, some b =>
    if a == b then optNatLe x.aisle y.aisle else decide (a < b)

/-- Insertion sort, used to model ORDER BY (kernel-reducible; the order of
ties under ORDER BY is unspecified, and the claims only consult
membership). -/
def insertSorted {α : Type} (le : α → α → Bool) (x : α) :
    List α → List α
  | [] => [x]
  | y :: ys => if le x y then x :: y :: ys else y :: insertSorted le x ys

def sortBy {α : Type} (le : α → α → Bool) : List α → List α
  | [] => []
  | x :: xs => insertSorted le x (sortBy le xs)

theorem mem_insertSorted {α : Type} (le : α → α → Bool) (x a : α)
    (l : List α) : a ∈ insertSorted le x l ↔ a = x ∨ a ∈ l := by
  induction l with
  | nil => simp [insertSorted]
  | cons y ys ih =>
    by_cases h : le x y = true
    · simp [insertSorted, h]
    · simp only [Bool.not_eq_true] at h
      simp only [insertSorted, h, Bool.false_eq_true, if_false,
        List.mem_cons, ih]
      tauto

theorem mem_sortBy {α : Type} (le : α → α → Bool) (a : α) (l : List α) :
    a ∈ sortBy le l ↔ a ∈ l := by
  induction l with
  | nil => simp [sortBy]
  | cons x xs ih =>
    simp [sortBy, mem_insertSorted, ih]

def joinView (a : Assignment) (e : Employee) : AssignmentView :=
  { assignment_id := a.assignment_id, employee_id := a.employee_id,
    shift_date := a.shift_date, cluster := a.cluster, aisle := a.aisle,
    position_type := a.position_type, assigned_at := a.assigned_at,
    assigned_by := a.assigned_by, status := a.status, notes := a.notes,
    name := e.name, photo_path := e.photo_path }

/-- Database.get_assignments_by_date: assignments of the date with the
requested status, inner-joined with the employees table on the worker
identity (an assignment whose worker row is absent produces no output row),
ordered by cluster then aisle. -/
def getAssignmentsByDate (asgs : List Assignment) (emps : List Employee)
    (d : Nat) (status : String) : List AssignmentView :=
  sortBy clusterAisleLe (asgs.filterMap (fun a =>
    if a.shift_date == d && a.status == status then
      (getEmployee emps a.employee_id).map (joinView a)
    else none))

/-- C7 counterexample: the store holds one active assignment (id 1) whose
worker identity GHOST has no employees row (the foreign key is declared but
not enforced, and create_assignment does not check it).  Cancelling it
keeps the row with status cancelled and all other fields intact, yet the
requested listing for its date including cancelled status returns nothing,
where the claim demands the assignment be returned. -/
theorem delete_assignment_listing_counterexample :
    (deleteAssignment
        [{ assignment_id := 1, employee_id := "GHOST", shift_date := 5,
           cluster := some "A", aisle := some 3,
           position_type := some "STOW", assigned_by := some "mgr" }] 1).2 =
      [{ assignment_id := 1, employee_id := "GHOST", shift_date := 5,
         cluster := some "A", aisle := some 3,
         position_type := some "STOW", assigned_by := some "mgr",
         status := "cancelled" }] ∧
    getAssignmentsByDate
        (deleteAssignment
          [{ assignment_id := 1, employee_id := "GHOST", shift_date := 5,
             cluster := some "A", aisle := some 3,
             position_type := some "STOW", assigned_by := some "mgr" }]
          1).2 [] 5 "cancelled" = [] := by
  decide

/-- C7 amended: delete_assignment reports success and never removes the
row: the row survives with status cancelled and every other field
unchanged, rows with other identities are untouched, and, provided a
worker row with the assignment's employee identity exists, the listing for
its date that asks for cancelled status still returns it with status
cancelled (the listing joins worker display fields, so an assignment whose
worker row is absent is omitted). -/
theorem delete_assignment_amended (asgs : List Assignment)
    (emps : List Employee) (a : Assignment) (ha : a ∈ asgs) :
    (deleteAssignment asgs a.assignment_id).1 = true ∧
    { a with status := "cancelled" } ∈
      (deleteAssignment asgs a.assignment_id).2 ∧
    (∀ b ∈ asgs, b.assignment_id ≠ a.assignment_id →
      b ∈ (deleteAssignment asgs a.assignment_id).2) ∧
    ((∃ e ∈ emps, e.employee_id = a.employee_id) →
      ∃ v ∈ getAssignmentsByDate (deleteAssignment asgs a.assignment_id).2
          emps a.shift_date "cancelled",
        v.assignment_id = a.assignment_id ∧ v.status = "cancelled" ∧
        v.employee_id = a.employee_id ∧ v.shift_date = a.shift_date ∧
        v.cluster = a.cluster ∧ v.aisle = a.aisle ∧
        v.position_type = a.position_type ∧ v.notes = a.notes ∧
        v.assigned_at = a.assigned_at) := by
  refine ⟨rfl, ?_, ?_, ?_⟩
  · have : { a with status := "cancelled" } =
        (fun b => if b.assignment_id == a.assignment_id then
          { b with status := "cancelled" } else b) a := by simp
    rw [this]
    exact List.mem_map_of_mem _ ha
  · intro b hb hne
    have : b = (fun c => if c.assignment_id == a.assignment_id then
        { c with status := "cancelled" } else c) b := by
      simp [hne]
    rw [this]
    exact List.mem_map_of_mem _ hb
  · rintro ⟨e, he, hee⟩
    have hfind : (getEmployee emps a.employee_id).isSome = true := by
      rw [getEmployee, List.find?_isSome]
      exact ⟨e, he, by simp [hee]⟩
    obtain ⟨e', he'⟩ := Option.isSome_iff_exists.mp hfind
    refine ⟨joinView { a with status := "cancelled" } e', ?_, ?_⟩
    · rw [getAssignmentsByDate, mem_sortBy, List.mem_filterMap]
      refine ⟨{ a with status := "cancelled" }, ?_, ?_⟩
      · have : { a with status := "cancelled" } =
            (fun b => if b.assignment_id == a.assignment_id then
              { b with status := "cancelled" } else b) a := by simp
        rw [deleteAssignment, this]
        exact List.mem_map_of_mem _ ha
      · simp [he']
    · simp [joinView]

/-- Witness for C7 amended: one active assignment whose worker exists; all
four conclusions are checked after instantiation, with the listing fact
extracted at the concrete worker row. -/
theorem delete_assignment_amended_witness :
    (deleteAssignment
        [{ assignment_id := 1, employee_id := "W1", shift_date := 5,
           cluster := some "A", aisle := some 3 }] 1).1 = true ∧
    ({ assignment_id := 1, employee_id := "W1", shift_date := 5,
       cluster := some "A", aisle := some 3,
       status := "cancelled" } : Assignment) ∈
      (deleteAssignment
        [{ assignment_id := 1, employee_id := "W1", shift_date := 5,
           cluster := some "A", aisle := some 3 }] 1).2 :=
  ⟨(delete_assignment_amended
      [{ assignment_id := 1, employee_id := "W1", shift_date := 5,
         cluster := some "A", aisle := some 3 }]
      [{ employee_id := "W1", name := "Web" }]
      { assignment_id := 1, employee_id := "W1", shift_date := 5,
        cluster := some "A", aisle := some 3 }
      (by decide)).1,
   (delete_assignment_amended
      [{ assignment_id := 1, employee_id := "W1", shift_date := 5,
         cluster := some "A", aisle := some 3 }]
      [{ employee_id := "W1", name := "Web" }]
      { assignment_id := 1, employee_id := "W1", shift_date := 5,
        cluster := some "A", aisle := some 3 }
      (by decide)).2.1⟩

/-- One assignment of the dynamic SET clause of Database.update_employee
(typed column constructors; the identity and the store-assigned timestamps
are not updatable, matching every caller and the immutable-identity
invariant). -/
inductive EmpField where
  | name (v : String)
  | photo_path (v : Option String)
  | shift (v : Option String)
  | schedule (v : Option String)
  | certifications (v : Option String)
  | restrictions (v : Option String)
  | hire_date (v : Option String)
  | status (v : String)
deriving DecidableEq, Repr

def applyEmpField (r : Employee) : EmpField → Employee
  | .name v => { r with name := v }
  | .photo_path v => { r with photo_path := v }
  | .shift v => { r with shift := v }
  | .schedule v => { r with schedule := v }
  | .certifications v => { r with certifications := v }
  | .restrictions v => { r with restrictions := v }
  | .hire_date v => { r with hire_date := v }
  | .status v => { r with status := v }

def empRowOk (r : Employee) : Bool :=
  shiftOk r.shift && empStatusOk r.status

/-- SET clause application of update_employee, including the
updated_at=CURRENT_TIMESTAMP it always appends. -/
def applyEmpFields (r : Employee) (fs : List EmpField) (now : Nat) :
    Employee :=
  { fs.foldl applyEmpField r with updated_at := now }

/-- Database.update_employee: with no kwargs the SET clause is malformed
(SQL syntax error, caught, False); a CHECK violation on a matched row makes
the UPDATE fail as a whole (caught, False, nothing applied); otherwise all
matched rows are updated and True is returned, whether or not any row
matched. -/
def updateEmployee (db : List Employee) (now : Nat) (id : String)
    (fs : List EmpField) : Bool × List Employee :=
  if fs.isEmpty then (false, db)
  else if db.any (fun r =>
      r.employee_id == id && !empRowOk (applyEmpFields r fs now)) then
    (false, db)
  else
    (true, db.map (fun r =>
      if r.employee_id == id then applyEmpFields r fs now else r))

/-- C10 counterexample: update_employee on an identifier with no matching
row returns False, not True, when the field set is empty (the malformed SET
clause raises before the WHERE clause matters), so the claim as stated over
every update call fails. -/
theorem update_missing_counterexample :
    (updateEmployee [] 0 "E1" []).1 = false := by
  decide

/-- C10 amended: called with at least one field, update_employee and
update_assignment on an identifier with no matching row return True and
leave the store unchanged, and delete_assignment on a missing identifier
likewise returns True with the store unchanged — a nonexistent target is
indistinguishable from a successful update; with an empty field set the
update operations instead return False regardless of whether the target
exists. -/
theorem update_missing_amended :
    (∀ (db : List Employee) (now : Nat) (id : String)
        (fs : List EmpField), fs ≠ [] → containsEmployee db id = false →
        updateEmployee db now id fs = (true, db)) ∧
    (∀ (asgs : List Assignment) (aid : Nat) (fs : List AsgField),
        fs ≠ [] → containsAssignment asgs aid = false →
        updateAssignment asgs aid fs = (true, asgs)) ∧
    (∀ (asgs : List Assignment) (aid : Nat),
        containsAssignment asgs aid = false →
        deleteAssignment asgs aid = (true, asgs)) := by
  refine ⟨?_, ?_, ?_⟩
  · intro db now id fs hfs h
    have hall : ∀ r ∈ db, (r.employee_id == id) = false := by
      intro r hr
      simpa using List.any_eq_false.mp h r hr
    have h1 : fs.isEmpty = false := by
      cases fs with
      | nil => cases hfs rfl
      | cons a l => rfl
    have h2 : db.any (fun r => r.employee_id == id &&
        !empRowOk (applyEmpFields r fs now)) = false := by
      rw [List.any_eq_false]
      intro r hr
      simp [hall r hr]
    simp only [updateEmployee, h1, h2, Bool.false_eq_true, if_false]
    rw [map_eq_self db _ (fun r hr => by simp [hall r hr])]
  · intro asgs aid fs hfs h
    have hall : ∀ a ∈ asgs, (a.assignment_id == aid) = false := by
      intro b hb
      simpa using List.any_eq_false.mp h b hb
    have h1 : fs.isEmpty = false := by
      cases fs with
      | nil => cases hfs rfl
      | cons a l => rfl
    have h2 : asgs.any (fun a => a.assignment_id == aid &&
        !asgRowOk (applyAsgFields a fs)) = false := by
      rw [List.any_eq_false]
      intro b hb
      simp [hall b hb]
    simp only [updateAssignment, h1, h2, Bool.false_eq_true, if_false]
    rw [map_eq_self asgs _ (fun b hb => by simp [hall b hb])]
  · intro asgs aid h
    have hall : ∀ a ∈ asgs, (a.assignment_id == aid) = false := by
      intro b hb
      simpa using List.any_eq_false.mp h b hb
    rw [deleteAssignment,
      map_eq_self asgs _ (fun b hb => by simp [hall b hb])]

/-- Witness for C10 amended: a nonempty update aimed at an absent
identifier succeeds on each of the three operations while changing
nothing. -/
theorem update_missing_amended_witness :
    updateEmployee [] 0 "E1" [.name "X"] = (true, []) ∧
    updateAssignment [] 7 [.status "completed"] = (true, []) ∧
    deleteAssignment [] 7 = (true, []) :=
  ⟨update_missing_amended.1 [] 0 "E1" [.name "X"] (by decide) rfl,
   update_missing_amended.2.1 [] 7 [.status "completed"] (by decide) rfl,
   update_missing_amended.2.2 [] 7 rfl⟩

/-- Python str.split(',') on the character list of a string: cuts at every
comma, keeping empty pieces. -/
def splitCommaChars : List Char → List (List Char)
  | [] => [[]]
  | c :: cs =>
    if c = ',' then [] :: splitCommaChars cs
    else
      match splitCommaChars cs with
      | [] => [[c]]
      | t :: ts => (c :: t) :: ts

/-- SQLite GROUP_CONCAT joining with the default comma separator, on
character lists. -/
def joinCommaChars : List (List Char) → List Char
  | [] => []
  | [p] => p
  | p :: ps => p ++ ',' :: joinCommaChars ps

/-- The distinct non-NULL process paths of a worker's active
certifications, as collected by GROUP_CONCAT(DISTINCT c.process_path) over
the LEFT JOIN of get_training_gaps (GROUP_CONCAT skips NULL inputs). -/
def activePathsFor (certs : List Certification) (eid : String) :
    List String :=
  ((certs.filter (fun c => c.employee_id == eid && c.status == "active")
    ).filterMap (fun c => c.process_path)).dedup

/-- The certifications column of the grouped row: NULL when the group has
no non-NULL path, otherwise the comma join. -/
def groupConcat (paths : List String) : Option String :=
  match paths with
  | [] => none
  | ps => some (String.mk (joinCommaChars (ps.map String.data)))

/-- The Python count in get_training_gaps:
len(x.split(sep)) if x else 0, where both None and the empty string are
falsy. -/
def pyCertCount : Option String → Nat
  | none => 0
  | some s => if s.data = [] then 0 else (splitCommaChars s.data).length

/-- Row shape appended to the gaps list by Database.get_training_gaps. -/
structure TrainingGap where
  employee_id : String
  name : String
  shift : Option String
  certification_count : Nat
deriving DecidableEq, Repr

/-- Database.get_training_gaps: for every active employee, count the
comma-separated pieces of the concatenated distinct active process paths
and report the employee when that count is below the hard-coded threshold
of 2. -/
def getTrainingGaps (emps : List Employee) (certs : List Certification) :
    List TrainingGap :=
  (emps.filter (fun e => e.status == "active")).filterMap (fun e =>
    let cnt := pyCertCount (groupConcat (activePathsFor certs e.employee_id))
    if cnt < 2 then
      some { employee_id := e.employee_id, name := e.name,
             shift := e.shift, certification_count := cnt }
    else none)

/-- The claim's description of the report, stated directly: active workers
whose number of distinct process paths among active certifications is below
2, each with that distinct count. -/
def specTrainingGaps (emps : List Employee) (certs : List Certification) :
    List TrainingGap :=
  (emps.filter (fun e => e.status == "active")).filterMap (fun e =>
    let cnt := (activePathsFor certs e.employee_id).length
    if cnt < 2 then
      some { employee_id := e.employee_id, name := e.name,
             shift := e.shift, certification_count := cnt }
    else none)

/-- A process path that is nonempty and comma-free survives the
GROUP_CONCAT round trip intact. -/
def commaFreePath : Option String → Bool
  | none => true
  | some p => !(p == "") && !(decide (',' ∈ p.data))

/-- Helper: filterMap only consults the function on elements of the
list. -/
theorem filterMap_congr {α β : Type} (f g : α → Option β) (l : List α)
    (h : ∀ a ∈ l, f a = g a) : l.filterMap f = l.filterMap g := by
  induction l with
  | nil => rfl
  | cons x xs ih =>
    have ih2 := ih (fun a ha => h a (List.mem_cons_of_mem x ha))
    cases hgx : g x with
    | none =>
      simp [List.filterMap_cons, h x (List.mem_cons_self x xs), hgx, ih2]
    | some b =>
      simp [List.filterMap_cons, h x (List.mem_cons_self x xs), hgx, ih2]

theorem splitCommaChars_ne_nil (l : List Char) :
    splitCommaChars l ≠ [] := by
  induction l with
  | nil => simp [splitCommaChars]
  | cons c cs ih =>
    by_cases h : c = ','
    · simp [splitCommaChars, h]
    · simp only [splitCommaChars, h, if_false]
      cases hs : splitCommaChars cs with
      | nil => simp
      | cons t ts => simp

theorem splitCommaChars_commaFree (p : List Char) (hp : ',' ∉ p) :
    splitCommaChars p = [p] := by
  induction p with
  | nil => rfl
  | cons c cs ih =>
    have hc : ¬c = ',' := fun h => hp (h ▸ List.mem_cons_self c cs)
    have hcs : ',' ∉ cs := fun h => hp (List.mem_cons_of_mem c h)
    simp only [splitCommaChars, hc, if_false, ih hcs]

theorem splitCommaChars_append (p rest : List Char) (hp : ',' ∉ p) :
    splitCommaChars (p ++ ',' :: rest) = p :: splitCommaChars rest := by
  induction p with
  | nil => simp [splitCommaChars]
  | cons c cs ih =>
    have hc : ¬c = ',' := fun h => hp (h ▸ List.mem_cons_self c cs)
    have hcs : ',' ∉ cs := fun h => hp (List.mem_cons_of_mem c h)
    simp only [List.cons_append, splitCommaChars, hc, if_false]
    rw [show splitCommaChars (cs.append (',' :: rest)) =
      cs :: splitCommaChars rest from ih hcs]

theorem splitCommaChars_joinCommaChars (ps : List (List Char))
    (hne : ps ≠ []) (hcf : ∀ p ∈ ps, ',' ∉ p) :
    splitCommaChars (joinCommaChars ps) = ps := by
  induction ps with
  | nil => cases hne rfl
  | cons p ps ih =>
    cases ps with
    | nil =>
      exact splitCommaChars_commaFree p (hcf p (List.mem_cons_self p []))
    | cons q qs =>
      have h1 : joinCommaChars (p :: q :: qs) =
          p ++ ',' :: joinCommaChars (q :: qs) := rfl
      rw [h1, splitCommaChars_append p _ (hcf p (List.mem_cons_self p _)),
        ih (by simp) (fun r hr => hcf r (List.mem_cons_of_mem p hr))]

theorem joinCommaChars_ne_nil (ps : List (List Char)) (hne : ps ≠ [])
    (h : ∀ p ∈ ps, p ≠ []) : joinCommaChars ps ≠ [] := by
  cases ps with
  | nil => cases hne rfl
  | cons p qs =>
    cases qs with
    | nil => exact h p (List.mem_cons_self p [])
    | cons q rs =>
      have h1 : joinCommaChars (p :: q :: rs) =
          p ++ ',' :: joinCommaChars (q :: rs) := rfl
      rw [h1]
      cases p <;> simp

/-- The count computed from the concatenated string equals the number of
distinct paths as soon as every path is nonempty and comma-free. -/
theorem pyCertCount_groupConcat (paths : List String)
    (h : ∀ p ∈ paths, p ≠ "" ∧ ',' ∉ p.data) :
    pyCertCount (groupConcat paths) = paths.length := by
  cases paths with
  | nil => rfl
  | cons p ps =>
    have hne : (p :: ps).map String.data ≠ [] := by simp
    have hcf : ∀ q ∈ (p :: ps).map String.data, ',' ∉ q := by
      intro q hq
      obtain ⟨r, hr, hrq⟩ := List.mem_map.mp hq
      exact hrq ▸ (h r hr).2
    have hnn : ∀ q ∈ (p :: ps).map String.data, q ≠ [] := by
      intro q hq
      obtain ⟨r, hr, hrq⟩ := List.mem_map.mp hq
      intro hq0
      exact (h r hr).1 (String.ext (hrq.trans hq0))
    have hgc : groupConcat (p :: ps) =
        some (String.mk (joinCommaChars ((p :: ps).map String.data))) := rfl
    have hjn : joinCommaChars ((p :: ps).map String.data) ≠ [] :=
      joinCommaChars_ne_nil _ hne hnn
    rw [hgc]
    show (if joinCommaChars ((p :: ps).map String.data) = [] then 0
      else (splitCommaChars
        (joinCommaChars ((p :: ps).map String.data))).length) =
      (p :: ps).length
    rw [if_neg hjn, splitCommaChars_joinCommaChars _ hne hcf,
      List.length_map]

/-- C8 counterexample: one active worker holding a single active
certification whose process path contains a comma.  The worker has exactly
one distinct active certification path, so the claim demands an entry with
count 1, but the comma-count logic of get_training_gaps computes 2 and
reports no gap at all. -/
theorem training_gaps_counterexample :
    getTrainingGaps [{ employee_id := "E1", name := "N" }]
        [{ cert_id := 1, employee_id := "E1",
           process_path := some "PICK,STOW" }] = [] ∧
    (activePathsFor
        [{ cert_id := 1, employee_id := "E1",
           process_path := some "PICK,STOW" }] "E1").length = 1 ∧
    specTrainingGaps [{ employee_id := "E1", name := "N" }]
        [{ cert_id := 1, employee_id := "E1",
           process_path := some "PICK,STOW" }] =
      [{ employee_id := "E1", name := "N", shift := none,
         certification_count := 1 }] := by
  decide

/-- C8 amended: provided every stored process path is nonempty and
comma-free, the report is exactly the active workers whose number of
distinct process paths among their active certifications (certifications
with a NULL path are not counted) is below the fixed threshold of 2, each
with that distinct count. -/
theorem training_gaps_amended (emps : List Employee)
    (certs : List Certification)
    (h : certs.all (fun c => commaFreePath c.process_path) = true) :
    getTrainingGaps emps certs = specTrainingGaps emps certs := by
  rw [getTrainingGaps, specTrainingGaps]
  apply filterMap_congr
  intro e he
  have hcnt : pyCertCount (groupConcat (activePathsFor certs e.employee_id))
      = (activePathsFor certs e.employee_id).length := by
    apply pyCertCount_groupConcat
    intro p hp
    have hp2 : p ∈ (certs.filter (fun c =>
        c.employee_id == e.employee_id && c.status == "active")).filterMap
        (fun c => c.process_path) := List.mem_dedup.mp hp
    obtain ⟨c, hc, hcp⟩ := List.mem_filterMap.mp hp2
    have hcc : c ∈ certs := (List.mem_filter.mp hc).1
    have hall := List.all_eq_true.mp h c hcc
    rw [hcp] at hall
    simpa [commaFreePath] using hall
  simp only [hcnt]

/-- Witness for C8 amended: a store whose single active certification path
is comma-free makes the report agree with the distinct-count description
(here the worker has one path, so it is reported with count 1 on both
sides). -/
theorem training_gaps_amended_witness :
    getTrainingGaps [{ employee_id := "E1", name := "N" }]
        [{ cert_id := 1, employee_id := "E1",
           process_path := some "PICK" }] =
      specTrainingGaps [{ employee_id := "E1", name := "N" }]
        [{ cert_id := 1, employee_id := "E1",
           process_path := some "PICK" }] :=
  training_gaps_amended [{ employee_id := "E1", name := "N" }]
    [{ cert_id := 1, employee_id := "E1", process_path := some "PICK" }]
    (by decide)

/-- Python str.upper(), on the character list of the string (ASCII case
mapping, as Char.toUpper). -/
def pyUpper (s : String) : String := String.mk (s.data.map Char.toUpper)

/-- Python str.split() with no argument, on character lists: cut at every
whitespace run, keeping empty pieces (filtered out below). -/
def splitAtWs : List Char → List (List Char)
  | [] => [[]]
  | c :: cs =>
    if c.isWhitespace then [] :: splitAtWs cs
    else
      match splitAtWs cs with
      | [] => [[c]]
      | t :: ts => (c :: t) :: ts

/-- Python name.split(): whitespace-delimited tokens, empties dropped. -/
def pyTokens (s : String) : List String :=
  ((splitAtWs s.data).filter (fun t => !t.isEmpty)).map String.mk

/-- The p[0].upper() of one token (tokens are nonempty, so the nil branch
is unreachable). -/
def firstCharUpper (t : String) : String :=
  match t.data with
  | [] => ""
  | c :: _ => String.mk [c.toUpper]

/-- Python employee_id[-2:]: the last two characters (the whole string when
it is shorter). -/
def lastTwoChars (s : String) : String :=
  String.mk (s.data.drop (s.data.length - 2))

/-- The identity-based branch of the initials computation in
PhotoManager._generate_initials_photo. -/
def idInitials (employee_id : String) : String :=
  if 2 ≤ employee_id.length then pyUpper (lastTwoChars employee_id)
  else pyUpper employee_id

/-- Python truthiness of the optional name argument: None and the empty
string are both falsy. -/
def nameTruthy : Option String → Bool
  | none => false
  | some n => !(n == "")

/-- The initials string computed by PhotoManager._generate_initials_photo:
with a truthy name, the joined uppercased first letters of up to the first
two whitespace tokens; otherwise the uppercased last two characters of the
identity. -/
def initialsFor (employee_id : String) (name : Option String) : String :=
  if nameTruthy name then
    String.join (((pyTokens (name.getD "")).take 2).map firstCharUpper)
  else idInitials employee_id

/-- Claim C9's description of the initials, taken literally: a supplied
name (even an empty one) selects the token branch, and only an absent name
selects the identity branch. -/
def claimInitials (employee_id : String) (name : Option String) : String :=
  match name with
  | some n => String.join (((pyTokens n).take 2).map firstCharUpper)
  | none => pyUpper (lastTwoChars employee_id)

/-- C9 counterexample: a supplied empty display name.  The claim's formula
yields an empty initials string, but the code treats the empty name as
absent and renders the uppercased identity characters. -/
theorem initials_counterexample :
    initialsFor "ab" (some "") = "AB" ∧ claimInitials "ab" (some "") = "" := by
  decide

theorem idInitials_eq (employee_id : String) :
    idInitials employee_id = pyUpper (lastTwoChars employee_id) := by
  rw [idInitials]
  by_cases h : 2 ≤ employee_id.length
  · rw [if_pos h]
  · rw [if_neg h]
    obtain ⟨l⟩ := employee_id
    have hl : l.length - 2 = 0 := by
      simp only [String.length] at h
      omega
    simp [pyUpper, lastTwoChars, hl]

/-- C9 amended: the computed initials agree with the claim's formula once a
supplied empty name is treated as an absent name — for a nonempty name the
first letters of up to the first two whitespace tokens, uppercased, and for
an absent or empty name the last two characters of the identity,
uppercased. -/
theorem initials_amended (employee_id : String) (name : Option String) :
    initialsFor employee_id name =
      claimInitials employee_id
        (match name with
          | some n => if n = "" then none else some n
          | none => none) := by
  cases name with
  | none => simp [initialsFor, nameTruthy, claimInitials, idInitials_eq]
  | some n =>
    by_cases h : n = ""
    · subst h
      simp [initialsFor, nameTruthy, claimInitials, idInitials_eq]
    · simp [initialsFor, nameTruthy, h, claimInitials]

/-- The renderable images the photo manager produces; decoding, resizing
and pixel drawing are opaque, so an image is identified by how it was
produced. -/
inductive Pixmap where
  | fromDisk (path : String) (width height : Nat)
  | initialsPix (text : String) (width height : Nat)
deriving DecidableEq, Repr

/-- The filesystem facts the photo manager consults: which photo files
exist under the photo directory and which of them decode successfully. -/
structure PhotoFs where
  fileExists : String → Bool
  decodeOk : String → Bool

/-- PhotoManager._find_photo: try the fixed ordered extension list and
return the first existing path (paths are employee_id plus extension,
relative to the photo directory). -/
def findPhoto (fs : PhotoFs) (employee_id : String) : Option String :=
  (PHOTO_EXTENSIONS.find? (fun ext => fs.fileExists (employee_id ++ ext))
    ).map (fun ext => employee_id ++ ext)

/-- PhotoManager._generate_initials_photo as an image value. -/
def generateInitialsPhoto (employee_id : String) (name : Option String)
    (size : Nat × Nat) : Pixmap :=
  .initialsPix (initialsFor employee_id name) size.1 size.2

/-- PhotoManager._load_photo_from_disk: a decodable file yields the resized
image; a decode failure falls back to the initials image for the path stem
(the employee identity) with no name. -/
def loadPhotoFromDisk (fs : PhotoFs) (employee_id path : String)
    (size : Nat × Nat) : Pixmap :=
  if fs.decodeOk path then .fromDisk path size.1 size.2
  else generateInitialsPhoto employee_id none size

/-- The cache key f-string of PhotoManager.get_photo. -/
def cacheKey (employee_id : String) (size : Nat × Nat) : String :=
  employee_id ++ "_" ++ toString size.1 ++ "x" ++ toString size.2

/-- The photo cache: a Python dict in insertion order, keyed by the cache
key string. -/
abbrev PhotoCache := List (String × Pixmap)

def cacheLookup (cache : PhotoCache) (key : String) : Option Pixmap :=
  (cache.find? (fun kv => kv.1 == key)).map (fun kv => kv.2)

/-- PhotoManager._add_to_cache: when the cache has reached the configured
capacity, evict the first key in insertion order (next(iter(dict))), then
append the new entry. -/
def addToCache (cap : Nat) (cache : PhotoCache) (key : String)
    (pix : Pixmap) : PhotoCache :=
  (if cap ≤ cache.length then cache.drop 1 else cache) ++ [(key, pix)]

/-- PhotoManager.get_photo: return the cached image when the key is
present; otherwise locate a photo file, decode it or synthesise the
initials fallback, insert the result into the cache and return it. -/
def getPhoto (fs : PhotoFs) (cap : Nat) (cache : PhotoCache)
    (employee_id : String) (name : Option String) (size : Nat × Nat) :
    Pixmap × PhotoCache :=
  let key := cacheKey employee_id size
  match cacheLookup cache key with
  | some pix => (pix, cache)
  | none =>
    let pix :=
      match findPhoto fs employee_id with
      | some path => loadPhotoFromDisk fs employee_id path size
      | none => generateInitialsPhoto employee_id name size
    (pix, addToCache cap cache key pix)

/-- One lookup request: identity, optional display name and requested pixel
size. -/
structure PhotoReq where
  employee_id : String
  name : Option String := none
  size : Nat × Nat := (150, 150)

def reqKey (r : PhotoReq) : String := cacheKey r.employee_id r.size

/-- A sequence of get_photo calls threaded through the cache. -/
def runGetPhotos (fs : PhotoFs) (cap : Nat) (cache : PhotoCache)
    (reqs : List PhotoReq) : PhotoCache :=
  reqs.foldl
    (fun c r => (getPhoto fs cap c r.employee_id r.name r.size).2) cache

def cacheKeys (cache : PhotoCache) : List String := cache.map Prod.fst

theorem cacheLookup_eq_none (cache : PhotoCache) (key : String)
    (h : key ∉ cacheKeys cache) : cacheLookup cache key = none := by
  rw [cacheLookup, Option.map_eq_none', List.find?_eq_none]
  intro kv hkv
  simp only [beq_iff_eq]
  intro hk
  exact h (hk ▸ List.mem_map_of_mem Prod.fst hkv)

theorem getPhoto_snd_absent (fs : PhotoFs) (cap : Nat) (cache : PhotoCache)
    (eid : String) (nm : Option String) (size : Nat × Nat)
    (h : cacheLookup cache (cacheKey eid size) = none) :
    (getPhoto fs cap cache eid nm size).2 =
      addToCache cap cache (cacheKey eid size)
        (getPhoto fs cap cache eid nm size).1 := by
  simp [getPhoto, h]

/-- Filling the cache with requests for absent distinct keys that fit under
the capacity appends their keys in request order without eviction. -/
theorem runGetPhotos_fill (fs : PhotoFs) (cap : Nat) :
    ∀ (reqs : List PhotoReq) (cache : PhotoCache),
      (∀ r ∈ reqs, reqKey r ∉ cacheKeys cache) →
      (reqs.map reqKey).Nodup →
      cache.length + reqs.length ≤ cap →
      cacheKeys (runGetPhotos fs cap cache reqs) =
        cacheKeys cache ++ reqs.map reqKey := by
  intro reqs
  induction reqs with
  | nil =>
    intro cache _ _ _
    simp [runGetPhotos, cacheKeys]
  | cons r rest ih =>
    intro cache habs hnodup hlen
    simp only [List.map_cons, List.nodup_cons] at hnodup
    have hlk : cacheLookup cache (cacheKey r.employee_id r.size) = none :=
      cacheLookup_eq_none cache _ (habs r (List.mem_cons_self r rest))
    have hroom : ¬cap ≤ cache.length := by
      simp only [List.length_cons] at hlen
      omega
    have hrun : runGetPhotos fs cap cache (r :: rest) =
        runGetPhotos fs cap
          ((getPhoto fs cap cache r.employee_id r.name r.size).2) rest := by
      simp [runGetPhotos]
    rw [hrun, getPhoto_snd_absent fs cap cache _ _ _ hlk, addToCache,
      if_neg hroom]
    set pix := (getPhoto fs cap cache r.employee_id r.name r.size).1
    have h1 : ∀ q ∈ rest,
        reqKey q ∉ cacheKeys
          (cache ++ [(cacheKey r.employee_id r.size, pix)]) := by
      intro q hq
      simp only [cacheKeys, List.map_append, List.map_cons, List.map_nil,
        List.mem_append, List.mem_singleton]
      rintro (hmem | hkey)
      · exact habs q (List.mem_cons_of_mem r hq) hmem
      · have hkey2 : reqKey q = reqKey r := hkey
        exact hnodup.1 (hkey2 ▸ List.mem_map_of_mem reqKey hq)
    have h2 : (cache ++ [(cacheKey r.employee_id r.size, pix)]).length +
        rest.length ≤ cap := by
      simp only [List.length_append, List.length_cons, List.length_nil]
      simp only [List.length_cons] at hlen
      omega
    rw [ih (cache ++ [(cacheKey r.employee_id r.size, pix)]) h1 hnodup.2 h2]
    simp [cacheKeys, reqKey, List.map_append]

theorem not_mem_of_nodup_concat {α : Type} (l : List α) (b : α)
    (h : (l ++ [b]).Nodup) : b ∉ l := by
  intro hb
  rcases List.nodup_append.mp h with ⟨_, _, hdisj⟩
  exact hdisj hb (List.mem_singleton_self b)

/-- C6: the photo cache never exceeds the configured capacity (any
get_photo call on a cache within capacity leaves it within capacity), and
requesting capacity plus one distinct keys through get_photo starting from
an empty cache evicts exactly the first-inserted key: the final cache holds
the later keys in insertion order, the first key is absent, and the cache
is exactly full. -/
theorem photo_cache_fifo (fs : PhotoFs) (cap : Nat) (hcap : 1 ≤ cap)
    (r0 : PhotoReq) (rest : List PhotoReq)
    (hnodup : ((r0 :: rest).map reqKey).Nodup)
    (hlen : rest.length = cap) :
    (cacheKeys (runGetPhotos fs cap [] (r0 :: rest)) = rest.map reqKey ∧
     reqKey r0 ∉ cacheKeys (runGetPhotos fs cap [] (r0 :: rest)) ∧
     (runGetPhotos fs cap [] (r0 :: rest)).length = cap) ∧
    (∀ (cache : PhotoCache) (eid : String) (nm : Option String)
        (size : Nat × Nat), cache.length ≤ cap →
      ((getPhoto fs cap cache eid nm size).2).length ≤ cap) := by
  have hbound : ∀ (cache : PhotoCache) (eid : String) (nm : Option String)
      (size : Nat × Nat), cache.length ≤ cap →
      ((getPhoto fs cap cache eid nm size).2).length ≤ cap := by
    intro cache eid nm size hc
    cases hl : cacheLookup cache (cacheKey eid size) with
    | some p =>
      simpa [getPhoto, hl] using hc
    | none =>
      simp only [getPhoto, hl, addToCache]
      by_cases hfull : cap ≤ cache.length
      · simp only [if_pos hfull, List.length_append, List.length_drop,
          List.length_cons, List.length_nil]
        omega
      · simp only [if_neg hfull, List.length_append, List.length_cons,
          List.length_nil]
        omega
  refine ⟨?_, hbound⟩
  rcases List.eq_nil_or_concat rest with hnil | ⟨L, b, hLb⟩
  · rw [hnil] at hlen
    simp at hlen
    omega
  rw [List.concat_eq_append] at hLb
  subst hLb
  have hL : L.length + 1 = cap := by
    simpa using hlen
  have hsub : List.Sublist ((r0 :: L).map reqKey)
      ((r0 :: (L ++ [b])).map reqKey) := by
    apply List.Sublist.map
    exact List.Sublist.cons₂ r0 (List.sublist_append_left L [b])
  have hnodup1 : ((r0 :: L).map reqKey).Nodup := hnodup.sublist hsub
  have hfill : cacheKeys (runGetPhotos fs cap [] (r0 :: L)) =
      (r0 :: L).map reqKey := by
    have := runGetPhotos_fill fs cap (r0 :: L) [] (by simp [cacheKeys])
      hnodup1 (by simp; omega)
    simpa [cacheKeys] using this
  have hmidlen : (runGetPhotos fs cap [] (r0 :: L)).length = cap := by
    have h1 : (cacheKeys (runGetPhotos fs cap [] (r0 :: L))).length =
        ((r0 :: L).map reqKey).length := by rw [hfill]
    simp only [cacheKeys, List.length_map] at h1
    simpa [h1] using hL
  have hkeysplit : ((r0 :: (L ++ [b])).map reqKey) =
      ((r0 :: L).map reqKey) ++ [reqKey b] := by
    simp [List.map_append]
  have hbnot : reqKey b ∉ cacheKeys (runGetPhotos fs cap [] (r0 :: L)) := by
    rw [hfill]
    exact not_mem_of_nodup_concat _ _ (hkeysplit ▸ hnodup)
  have hsplit : runGetPhotos fs cap [] (r0 :: (L ++ [b])) =
      (getPhoto fs cap (runGetPhotos fs cap [] (r0 :: L)) b.employee_id
        b.name b.size).2 := by
    show List.foldl _ _ ((r0 :: L) ++ [b]) = _
    rw [runGetPhotos, List.foldl_append]
    rfl
  have hlkb : cacheLookup (runGetPhotos fs cap [] (r0 :: L))
      (cacheKey b.employee_id b.size) = none :=
    cacheLookup_eq_none _ _ hbnot
  have hfullb : cap ≤ (runGetPhotos fs cap [] (r0 :: L)).length := by
    omega
  have hfinal : runGetPhotos fs cap [] (r0 :: (L ++ [b])) =
      (runGetPhotos fs cap [] (r0 :: L)).drop 1 ++
        [(cacheKey b.employee_id b.size,
          (getPhoto fs cap (runGetPhotos fs cap [] (r0 :: L)) b.employee_id
            b.name b.size).1)] := by
    rw [hsplit, getPhoto_snd_absent _ _ _ _ _ _ hlkb, addToCache,
      if_pos hfullb]
  have hkeysfinal : cacheKeys (runGetPhotos fs cap [] (r0 :: (L ++ [b]))) =
      (L ++ [b]).map reqKey := by
    rw [hfinal]
    simp only [cacheKeys, List.map_append, List.map_cons, List.map_nil,
      List.map_drop]
    rw [show (runGetPhotos fs cap [] (r0 :: L)).map Prod.fst =
      cacheKeys (runGetPhotos fs cap [] (r0 :: L)) from rfl, hfill]
    simp [reqKey, List.map_append]
  refine ⟨hkeysfinal, ?_, ?_⟩
  · rw [hkeysfinal]
    have hn := hnodup
    rw [List.map_cons, List.nodup_cons] at hn
    exact hn.1
  · have h1 : (cacheKeys (runGetPhotos fs cap [] (r0 :: (L ++ [b])))).length
        = ((L ++ [b]).map reqKey).length := by rw [hkeysfinal]
    simp only [cacheKeys, List.length_map] at h1
    rw [h1]
    simpa using hlen

/-- Witness for C6: capacity 1, two distinct identities; the first key is
evicted, the second remains, the cache stays exactly full. -/
theorem photo_cache_fifo_witness :
    (cacheKeys (runGetPhotos
        { fileExists := fun _ => false, decodeOk := fun _ => false } 1 []
        [{ employee_id := "a", size := (1, 1) },
         { employee_id := "b", size := (1, 1) }]) =
      [{ employee_id := "b", name := none,
         size := (1, 1) : PhotoReq }].map reqKey ∧
     reqKey { employee_id := "a", name := none, size := (1, 1) } ∉
      cacheKeys (runGetPhotos
        { fileExists := fun _ => false, decodeOk := fun _ => false } 1 []
        [{ employee_id := "a", size := (1, 1) },
         { employee_id := "b", size := (1, 1) }]) ∧
     (runGetPhotos
        { fileExists := fun _ => false, decodeOk := fun _ => false } 1 []
        [{ employee_id := "a", size := (1, 1) },
         { employee_id := "b", size := (1, 1) }]).length = 1) :=
  (photo_cache_fifo
    { fileExists := fun _ => false, decodeOk := fun _ => false } 1
    (by decide) { employee_id := "a", size := (1, 1) }
    [{ employee_id := "b", size := (1, 1) }]
    (by decide) (by decide)).1

end Dispatch
